import Mathlib

/-!
# Verification of the mongoose-paranoia soft-delete overlay

Shallow embedding of `src/index.ts` (the `Paranoia` plugin): documents are
association lists of field values, query state carries a filter and the
transient include-deleted flag, and the plugin's statics, query helpers and
pre-execution middleware are translated as pure functions over collections.
-/

set_option autoImplicit false

namespace Paranoia

/-- Field values stored in a document: booleans, timestamps (`new Date()`
modelled as a natural number), `null`, strings and object ids. -/
inductive BVal where
  | vBool (b : Bool)
  | vTime (t : Nat)
  | vNull
  | vStr (s : String)
  | vId (n : Nat)
  deriving DecidableEq, Repr

/-- A document is an association list from field names to values. -/
abbrev Doc : Type := List (String × BVal)

/-- A filter condition on one field: plain equality (`{f: v}`) or
`{f: {$ne: v}}`. -/
inductive Cond where
  | eqC (v : BVal)
  | neC (v : BVal)
  deriving DecidableEq, Repr

/-- A query filter: an association list from field names to conditions
(a conjunction, as in a MongoDB filter object). -/
abbrev Filter : Type := List (String × Cond)

/-- Look up the entry for key `k` in an association list. -/
def getEntry {α : Type} : List (String × α) → String → Option α
  | [], _ => none
  | (k0, v) :: rest, k => if k0 = k then some v else getEntry rest k

/-- Does the association list carry an entry for key `k`?
(`obj[k] !== undefined` in the source.) -/
def hasKey {α : Type} (l : List (String × α)) (k : String) : Bool :=
  l.any (fun kc => decide (kc.1 = k))

/-- Set key `k` to `v`, replacing an existing entry in place or appending a
new one (JavaScript object assignment / spread-overwrite). -/
def setEntry {α : Type} : List (String × α) → String → α → List (String × α)
  | [], k, v => [(k, v)]
  | (k0, v0) :: rest, k, v =>
    if k0 = k then (k, v) :: rest else (k0, v0) :: setEntry rest k v

/-- Value of field `k` of document `d` (`none` = field absent). -/
def getF (d : Doc) (k : String) : Option BVal :=
  getEntry d k

/-- MongoDB condition semantics: `{$ne: v}` also matches a document in which
the field is absent; equality with `null` matches an absent field. -/
def evalCond : Cond → Option BVal → Bool
  | Cond.eqC v, o => decide (o = some v ∨ (v = BVal.vNull ∧ o = none))
  | Cond.neC v, o => decide (¬ (o = some v ∨ (v = BVal.vNull ∧ o = none)))

/-- A document matches a filter when every condition holds on it. -/
def matchesFilter (f : Filter) (d : Doc) : Bool :=
  f.all (fun kc => evalCond kc.2 (getF d kc.1))

/-- Apply a `$set` update document: set each listed field in order. -/
def applySet (u : List (String × BVal)) (d : Doc) : Doc :=
  u.foldl (fun acc kv => setEntry acc kv.1 kv.2) d

/-- The three-state read-visibility policy (`activeArchive`). -/
inductive Policy where
  | Scope
  | Default
  | All
  deriving DecidableEq, Repr

/-- Resolved plugin configuration (the `opts` object after defaulting). -/
structure Opts where
  deletedAt : Bool
  deletedBy : Bool
  deletedByType : String
  activeArchive : Policy
  deletedField : String
  deletedAtField : String
  deletedByField : String
  deriving DecidableEq, Repr

/-- Caller-supplied partial options (`ParanoiaOptions`): every field may be
omitted. -/
structure ParanoiaOptions where
  deletedAt : Option Bool
  deletedBy : Option Bool
  deletedByType : Option String
  activeArchive : Option Policy
  deletedField : Option String
  deletedAtField : Option String
  deletedByField : Option String
  deriving DecidableEq, Repr

/-- Configuration resolver: merge caller options with the documented
defaults (`const opts = { deletedAt: true, ... , ...options }`). -/
def resolveOptions (po : ParanoiaOptions) : Opts where
  deletedAt := po.deletedAt.getD true
  deletedBy := po.deletedBy.getD false
  deletedByType := po.deletedByType.getD "ObjectId"
  activeArchive := po.activeArchive.getD Policy.Default
  deletedField := po.deletedField.getD "deleted"
  deletedAtField := po.deletedAtField.getD "deletedAt"
  deletedByField := po.deletedByField.getD "deletedBy"

/-- The fully defaulted configuration (plugin applied with no options). -/
def defaultOpts : Opts :=
  resolveOptions ⟨none, none, none, none, none, none, none⟩

/-- Schema augmenter: the fields `schema.add` declares together with their
defaults (`deleted: false` always; `deletedAt: null` and `deletedBy: null`
when enabled). -/
def schemaDefaults (opts : Opts) : List (String × BVal) :=
  [(opts.deletedField, BVal.vBool false)]
    ++ (if opts.deletedAt then [(opts.deletedAtField, BVal.vNull)] else [])
    ++ (if opts.deletedBy then [(opts.deletedByField, BVal.vNull)] else [])

/-- A newly created document: schema defaults fill exactly the fields the
caller did not provide. -/
def newDocument (opts : Opts) (base : Doc) : Doc :=
  (schemaDefaults opts).foldl
    (fun d kv => if hasKey d kv.1 then d else setEntry d kv.1 kv.2) base

/-- State of one query: its filter and the transient include-deleted flag
(`this._includeDeleted`). A fresh query has the flag unset. -/
structure QueryState where
  filter : Filter
  includeDeleted : Bool
  deriving DecidableEq, Repr

/-- `this.where({k: cond})`: merge one condition into the query filter. -/
def whereCond (q : QueryState) (k : String) (c : Cond) : QueryState :=
  { q with filter := setEntry q.filter k c }

/-- Query helper `active()`: throws when `deletedField` is falsy, otherwise
adds `{deletedField: {$ne: true}}`. -/
def active (opts : Opts) (q : QueryState) : Except String QueryState :=
  if opts.deletedField = "" then
    Except.error "deletedField is required for active query helper"
  else
    Except.ok (whereCond q opts.deletedField (Cond.neC (BVal.vBool true)))

/-- Query helper `deleted()`: throws when `deletedField` is falsy, otherwise
adds `{deletedField: true}`. -/
def deleted (opts : Opts) (q : QueryState) : Except String QueryState :=
  if opts.deletedField = "" then
    Except.error "deletedField is required for deleted query helper"
  else
    Except.ok (whereCond q opts.deletedField (Cond.eqC (BVal.vBool true)))

/-- Query helper `withDeleted()`: only sets the transient flag. -/
def withDeleted (q : QueryState) : QueryState :=
  { q with includeDeleted := true }

/-- The pre-execution query middleware registered under policy `Default`:
skip when the include-deleted flag is set, when `deletedField` is falsy, or
when the filter already has an entry for `deletedField`; otherwise add
`{deletedField: {$ne: true}}` (the key is absent, so this appends). -/
def queryMiddleware (opts : Opts) (q : QueryState) : QueryState :=
  if q.includeDeleted then q
  else if opts.deletedField = "" then q
  else if hasKey q.filter opts.deletedField then q
  else { q with filter := q.filter ++ [(opts.deletedField, Cond.neC (BVal.vBool true))] }

/-- The read-class operations on which the query middleware is registered. -/
inductive ReadOp where
  | find
  | findOne
  | findOneAndUpdate
  | countDocuments
  deriving DecidableEq, Repr

/-- Pre-execution processing of a query: the middleware is registered (for
all four read operations alike) only when the policy is `Default`. -/
def preQuery (opts : Opts) (q : QueryState) : QueryState :=
  if opts.activeArchive = Policy.Default then queryMiddleware opts q else q

/-- Pre-execution processing of a given read-class operation's query. The
same middleware body is attached to each of the four operations. -/
def preRead (opts : Opts) (_op : ReadOp) (q : QueryState) : QueryState :=
  preQuery opts q

/-- Execute a `find`: the documents matching the post-middleware filter. -/
def execFind (opts : Opts) (q : QueryState) (coll : List Doc) : List Doc :=
  coll.filter (fun d => matchesFilter (preQuery opts q).filter d)

/-- Result of an update-class operation (`UpdateWriteOpResult`). -/
structure UpdateResult where
  matchedCount : Nat
  modifiedCount : Nat
  deriving DecidableEq, Repr

/-- `updateMany`: apply the `$set` update to every matching document. -/
def execUpdateMany (f : Filter) (u : List (String × BVal)) (coll : List Doc) :
    UpdateResult × List Doc :=
  (⟨coll.countP (fun d => matchesFilter f d),
    coll.countP (fun d => matchesFilter f d && decide (applySet u d ≠ d))⟩,
   coll.map (fun d => if matchesFilter f d then applySet u d else d))

/-- `updateOne`: apply the `$set` update to the first matching document. -/
def execUpdateOne (f : Filter) (u : List (String × BVal)) :
    List Doc → UpdateResult × List Doc
  | [] => (⟨0, 0⟩, [])
  | d :: rest =>
    if matchesFilter f d then
      (⟨1, if applySet u d = d then 0 else 1⟩, applySet u d :: rest)
    else
      let r := execUpdateOne f u rest
      (r.1, d :: r.2)

/-- Core of `findOneAndUpdate`: update the first document matching the
(already middleware-processed) filter; return the pre-update document when
`retNew = false` and the updated one when `retNew = true`. -/
def execFindOneAndUpdate (f : Filter) (u : List (String × BVal)) (retNew : Bool) :
    List Doc → Option Doc × List Doc
  | [] => (none, [])
  | d :: rest =>
    if matchesFilter f d then
      (some (if retNew then applySet u d else d), applySet u d :: rest)
    else
      let r := execFindOneAndUpdate f u retNew rest
      (r.1, d :: r.2)

/-- A `findOneAndUpdate` call: the registered pre middleware runs on the
query, then the update executes. -/
def runFindOneAndUpdate (opts : Opts) (q : QueryState) (u : List (String × BVal))
    (retNew : Bool) (coll : List Doc) : Option Doc × List Doc :=
  execFindOneAndUpdate (preRead opts ReadOp.findOneAndUpdate q).filter u retNew coll

/-- The `$set` body shared by all four delete-class rewrites:
`{deletedField: true, ...(deletedAt && {deletedAtField: new Date()})}`. -/
def softUpdate (opts : Opts) (now : Nat) : List (String × BVal) :=
  [(opts.deletedField, BVal.vBool true)]
    ++ (if opts.deletedAt then [(opts.deletedAtField, BVal.vTime now)] else [])

/-- Rewritten `Model.deleteOne`: `updateOne(filter, {$set: softUpdate})`. -/
def deleteOne (opts : Opts) (f : Filter) (now : Nat) (coll : List Doc) :
    UpdateResult × List Doc :=
  execUpdateOne f (softUpdate opts now) coll

/-- Rewritten `Model.deleteMany`: `updateMany(filter, {$set: softUpdate})`. -/
def deleteMany (opts : Opts) (f : Filter) (now : Nat) (coll : List Doc) :
    UpdateResult × List Doc :=
  execUpdateMany f (softUpdate opts now) coll

/-- Rewritten `Model.findOneAndDelete`:
`findOneAndUpdate(filter, {$set: softUpdate}, {new: false})` on a fresh
query (include-deleted flag unset). -/
def findOneAndDelete (opts : Opts) (f : Filter) (now : Nat) (coll : List Doc) :
    Option Doc × List Doc :=
  runFindOneAndUpdate opts ⟨f, false⟩ (softUpdate opts now) false coll

/-- Rewritten `Model.findByIdAndDelete`:
`findByIdAndUpdate(id, {$set: softUpdate}, {new: false})`, i.e. a
`findOneAndUpdate` whose filter is `{_id: id}`. -/
def findByIdAndDelete (opts : Opts) (id : BVal) (now : Nat) (coll : List Doc) :
    Option Doc × List Doc :=
  runFindOneAndUpdate opts ⟨[("_id", Cond.eqC id)], false⟩ (softUpdate opts now) false coll

/-- The field resets shared by both restore operations: flag to `false`,
timestamp to `null` when enabled, actor to `null` when enabled. -/
def restoreUpdate (opts : Opts) : List (String × BVal) :=
  [(opts.deletedField, BVal.vBool false)]
    ++ (if opts.deletedAt then [(opts.deletedAtField, BVal.vNull)] else [])
    ++ (if opts.deletedBy then [(opts.deletedByField, BVal.vNull)] else [])

/-- Instance method `restore()`: reset the fields on this document and
persist it. -/
def restoreMethod (opts : Opts) (d : Doc) : Doc :=
  applySet (restoreUpdate opts) d

/-- Static `Model.restore(filter)`:
`updateMany({...filter, [deletedField]: true}, {$set: restoreUpdate})` —
the spread overwrites any existing `deletedField` entry of the filter. -/
def restoreStatic (opts : Opts) (f : Filter) (coll : List Doc) :
    UpdateResult × List Doc :=
  execUpdateMany (setEntry f opts.deletedField (Cond.eqC (BVal.vBool true)))
    (restoreUpdate opts) coll

/-- An aggregation pipeline stage: a `$match` stage with a filter, or any
other stage (opaque to the middleware). -/
inductive Stage where
  | smatch (f : Filter)
  | sother (name : String)
  deriving DecidableEq, Repr

/-- `stage?.$match?.[deletedField] !== undefined`: the stage is a `$match`
whose filter has an entry for the given key. -/
def stageConstrains (s : Stage) (k : String) : Bool :=
  match s with
  | Stage.smatch f => hasKey f k
  | Stage.sother _ => false

/-- State of one aggregation: its pipeline and the transient flag. -/
structure AggState where
  pipeline : List Stage
  includeDeleted : Bool
  deriving DecidableEq, Repr

/-- The first-stage inspection of the aggregate middleware:
`pipeline[0]?.$match?.[deletedField] !== undefined`. -/
def firstStageConstrains (p : List Stage) (k : String) : Bool :=
  match p.head? with
  | some s => stageConstrains s k
  | none => false

/-- The pre-aggregate middleware registered under policy `Default`: skip on
the flag or a falsy `deletedField`; otherwise inspect only the first stage
and prepend `{$match: {deletedField: {$ne: true}}}` unless that first stage
already constrains `deletedField`. -/
def aggMiddleware (opts : Opts) (a : AggState) : AggState :=
  if a.includeDeleted then a
  else if opts.deletedField = "" then a
  else if firstStageConstrains a.pipeline opts.deletedField then a
  else { a with
    pipeline := Stage.smatch [(opts.deletedField, Cond.neC (BVal.vBool true))] :: a.pipeline }

/-- Pre-execution processing of an aggregation: the middleware is registered
only when the policy is `Default`. -/
def preAggregate (opts : Opts) (a : AggState) : AggState :=
  if opts.activeArchive = Policy.Default then aggMiddleware opts a else a

/-! ## Association-list lemmas -/

theorem getEntry_setEntry_self {α : Type} (l : List (String × α)) (k : String) (v : α) :
    getEntry (setEntry l k v) k = some v := by
  induction l with
  | nil => simp [setEntry, getEntry]
  | cons hd tl ih =>
    obtain ⟨k0, v0⟩ := hd
    by_cases h : k0 = k
    · simp [setEntry, h, getEntry]
    · simp [setEntry, h, getEntry, ih]

theorem getEntry_setEntry_ne {α : Type} (l : List (String × α)) (k k2 : String) (v : α)
    (h : k ≠ k2) : getEntry (setEntry l k v) k2 = getEntry l k2 := by
  induction l with
  | nil => simp [setEntry, getEntry, h]
  | cons hd tl ih =>
    obtain ⟨k0, v0⟩ := hd
    by_cases h0 : k0 = k
    · subst h0
      simp [setEntry, getEntry, h]
    · by_cases h2 : k0 = k2
      · simp [setEntry, h0, getEntry, h2, Ne.symm h]
      · simp [setEntry, h0, getEntry, h2, ih]

theorem hasKey_eq_isSome {α : Type} (l : List (String × α)) (k : String) :
    hasKey l k = (getEntry l k).isSome := by
  induction l with
  | nil => simp [hasKey, getEntry]
  | cons hd tl ih =>
    obtain ⟨k0, v0⟩ := hd
    by_cases h : k0 = k
    · simp [hasKey, getEntry, h]
    · simpa [hasKey, getEntry, h] using ih

theorem setEntry_of_not_hasKey {α : Type} (l : List (String × α)) (k : String) (v : α)
    (h : hasKey l k = false) : setEntry l k v = l ++ [(k, v)] := by
  induction l with
  | nil => simp [setEntry]
  | cons hd tl ih =>
    obtain ⟨k0, v0⟩ := hd
    simp only [hasKey, List.any_cons, Bool.or_eq_false_iff, decide_eq_false_iff_not] at h
    simp [setEntry, h.1, ih h.2]

theorem mem_setEntry_self {α : Type} (l : List (String × α)) (k : String) (v : α) :
    (k, v) ∈ setEntry l k v := by
  induction l with
  | nil => simp [setEntry]
  | cons hd tl ih =>
    obtain ⟨k0, v0⟩ := hd
    by_cases h : k0 = k
    · simp [setEntry, h]
    · simp [setEntry, h, ih]

/-! ## Filter-matching lemmas -/

theorem matchesFilter_append (f1 f2 : Filter) (d : Doc) :
    matchesFilter (f1 ++ f2) d = (matchesFilter f1 d && matchesFilter f2 d) := by
  simp [matchesFilter, List.all_append]

theorem matchesFilter_singleton (k : String) (c : Cond) (d : Doc) :
    matchesFilter [(k, c)] d = evalCond c (getF d k) := by
  simp [matchesFilter]

theorem evalCond_ne_true_of_deleted (o : Option BVal)
    (h : o = some (BVal.vBool true)) : evalCond (Cond.neC (BVal.vBool true)) o = false := by
  subst h
  simp [evalCond]

theorem eq_some_true_of_matches_setEntry (f : Filter) (k : String) (d : Doc)
    (h : matchesFilter (setEntry f k (Cond.eqC (BVal.vBool true))) d = true) :
    getF d k = some (BVal.vBool true) := by
  have hmem := mem_setEntry_self f k (Cond.eqC (BVal.vBool true))
  have hall := (List.all_eq_true.mp h) _ hmem
  simpa [evalCond] using hall

/-! ## Update-application lemmas -/

theorem applySet_softUpdate (opts : Opts) (now : Nat) (d : Doc) :
    applySet (softUpdate opts now) d =
      if opts.deletedAt then
        setEntry (setEntry d opts.deletedField (BVal.vBool true))
          opts.deletedAtField (BVal.vTime now)
      else setEntry d opts.deletedField (BVal.vBool true) := by
  cases hAt : opts.deletedAt <;> simp [softUpdate, applySet, hAt]

theorem getF_softUpdate_flag (opts : Opts) (now : Nat) (d : Doc)
    (hne : opts.deletedField ≠ opts.deletedAtField) :
    getF (applySet (softUpdate opts now) d) opts.deletedField = some (BVal.vBool true) := by
  rw [applySet_softUpdate]
  cases hAt : opts.deletedAt
  · simp [getF, getEntry_setEntry_self]
  · simp only [if_true]
    rw [getF, getEntry_setEntry_ne _ _ _ _ (fun h => hne h.symm), getEntry_setEntry_self]

theorem getF_softUpdate_time (opts : Opts) (now : Nat) (d : Doc)
    (hAt : opts.deletedAt = true) :
    getF (applySet (softUpdate opts now) d) opts.deletedAtField = some (BVal.vTime now) := by
  rw [applySet_softUpdate, hAt]
  simp [getF, getEntry_setEntry_self]

theorem applySet_restoreUpdate (opts : Opts) (d : Doc) :
    applySet (restoreUpdate opts) d =
      (let d1 := setEntry d opts.deletedField (BVal.vBool false)
       let d2 := if opts.deletedAt then setEntry d1 opts.deletedAtField BVal.vNull else d1
       if opts.deletedBy then setEntry d2 opts.deletedByField BVal.vNull else d2) := by
  cases hAt : opts.deletedAt <;> cases hBy : opts.deletedBy <;>
    simp [restoreUpdate, applySet, hAt, hBy]

theorem getF_restoreUpdate_flag (opts : Opts) (d : Doc)
    (h1 : opts.deletedAtField ≠ opts.deletedField)
    (h2 : opts.deletedByField ≠ opts.deletedField) :
    getF (applySet (restoreUpdate opts) d) opts.deletedField = some (BVal.vBool false) := by
  rw [applySet_restoreUpdate]
  cases hAt : opts.deletedAt <;> cases hBy : opts.deletedBy <;>
    simp [getF, getEntry_setEntry_ne _ _ _ _ h1, getEntry_setEntry_ne _ _ _ _ h2,
      getEntry_setEntry_self]

theorem getF_restoreUpdate_time (opts : Opts) (d : Doc)
    (hAt : opts.deletedAt = true)
    (h3 : opts.deletedByField ≠ opts.deletedAtField) :
    getF (applySet (restoreUpdate opts) d) opts.deletedAtField = some BVal.vNull := by
  rw [applySet_restoreUpdate, hAt]
  cases hBy : opts.deletedBy <;>
    simp [getF, getEntry_setEntry_ne _ _ _ _ h3, getEntry_setEntry_self]

/-! ## Lemmas on the collection-level operation primitives -/

theorem execUpdateOne_snd_length (f : Filter) (u : List (String × BVal)) (coll : List Doc) :
    (execUpdateOne f u coll).2.length = coll.length := by
  induction coll with
  | nil => simp [execUpdateOne]
  | cons d rest ih =>
    cases h : matchesFilter f d <;> simp [execUpdateOne, h, ih]

theorem execUpdateOne_matched (f : Filter) (u : List (String × BVal)) (coll : List Doc) :
    (execUpdateOne f u coll).1.matchedCount =
      if coll.any (fun d => matchesFilter f d) then 1 else 0 := by
  induction coll with
  | nil => simp [execUpdateOne]
  | cons d rest ih =>
    cases h : matchesFilter f d <;> simp [execUpdateOne, h, ih]

theorem mem_execUpdateOne_snd (f : Filter) (u : List (String × BVal)) (coll : List Doc)
    (d0 : Doc) (hmem : d0 ∈ (execUpdateOne f u coll).2) :
    d0 ∈ coll ∨ ∃ d ∈ coll, d0 = applySet u d := by
  induction coll with
  | nil => simp [execUpdateOne] at hmem
  | cons d rest ih =>
    cases h : matchesFilter f d <;> rw [execUpdateOne] at hmem <;> simp [h] at hmem
    · rcases hmem with h0 | h0
      · exact Or.inl (by simp [h0])
      · rcases ih h0 with h1 | ⟨d1, hd1, hd2⟩
        · exact Or.inl (List.mem_cons_of_mem _ h1)
        · exact Or.inr ⟨d1, List.mem_cons_of_mem _ hd1, hd2⟩
    · rcases hmem with h0 | h0
      · exact Or.inr ⟨d, List.mem_cons_self _ _, h0⟩
      · exact Or.inl (List.mem_cons_of_mem _ h0)

theorem execFindOneAndUpdate_snd_length (f : Filter) (u : List (String × BVal))
    (rn : Bool) (coll : List Doc) :
    (execFindOneAndUpdate f u rn coll).2.length = coll.length := by
  induction coll with
  | nil => simp [execFindOneAndUpdate]
  | cons d rest ih =>
    cases h : matchesFilter f d <;> simp [execFindOneAndUpdate, h, ih]

theorem execFindOneAndUpdate_of_no_match (f : Filter) (u : List (String × BVal))
    (rn : Bool) (coll : List Doc) (h : ∀ d ∈ coll, matchesFilter f d = false) :
    execFindOneAndUpdate f u rn coll = (none, coll) := by
  induction coll with
  | nil => simp [execFindOneAndUpdate]
  | cons d rest ih =>
    have hd : matchesFilter f d = false := h d (List.mem_cons_self _ _)
    have hrest := ih (fun d1 h1 => h d1 (List.mem_cons_of_mem _ h1))
    simp [execFindOneAndUpdate, hd, hrest]

theorem execFindOneAndUpdate_fst_mem (f : Filter) (u : List (String × BVal))
    (coll : List Doc) (d0 : Doc)
    (h : (execFindOneAndUpdate f u false coll).1 = some d0) : d0 ∈ coll := by
  induction coll with
  | nil => simp [execFindOneAndUpdate] at h
  | cons d rest ih =>
    cases hm : matchesFilter f d <;> rw [execFindOneAndUpdate] at h <;> simp [hm] at h
    · exact List.mem_cons_of_mem _ (ih h)
    · simp [h]

theorem mem_execFindOneAndUpdate_snd (f : Filter) (u : List (String × BVal))
    (rn : Bool) (coll : List Doc) (d0 : Doc)
    (hmem : d0 ∈ (execFindOneAndUpdate f u rn coll).2) :
    d0 ∈ coll ∨ ∃ d ∈ coll, d0 = applySet u d := by
  induction coll with
  | nil => simp [execFindOneAndUpdate] at hmem
  | cons d rest ih =>
    cases h : matchesFilter f d <;> rw [execFindOneAndUpdate] at hmem <;> simp [h] at hmem
    · rcases hmem with h0 | h0
      · exact Or.inl (by simp [h0])
      · rcases ih h0 with h1 | ⟨d1, hd1, hd2⟩
        · exact Or.inl (List.mem_cons_of_mem _ h1)
        · exact Or.inr ⟨d1, List.mem_cons_of_mem _ hd1, hd2⟩
    · rcases hmem with h0 | h0
      · exact Or.inr ⟨d, List.mem_cons_self _ _, h0⟩
      · exact Or.inl (List.mem_cons_of_mem _ h0)

/-! ## Middleware branch lemmas -/

theorem preQuery_of_default (opts : Opts) (q : QueryState)
    (hpol : opts.activeArchive = Policy.Default) :
    preQuery opts q = queryMiddleware opts q := by
  simp [preQuery, hpol]

theorem queryMiddleware_skip_flag (opts : Opts) (q : QueryState)
    (h : q.includeDeleted = true) : queryMiddleware opts q = q := by
  simp [queryMiddleware, h]

theorem queryMiddleware_skip_key (opts : Opts) (q : QueryState)
    (h : hasKey q.filter opts.deletedField = true) : queryMiddleware opts q = q := by
  unfold queryMiddleware
  split
  · rfl
  · split
    · rfl
    · simp [h]

theorem queryMiddleware_inject (opts : Opts) (q : QueryState)
    (h1 : q.includeDeleted = false) (h2 : opts.deletedField ≠ "")
    (h3 : hasKey q.filter opts.deletedField = false) :
    queryMiddleware opts q =
      ⟨q.filter ++ [(opts.deletedField, Cond.neC (BVal.vBool true))], false⟩ := by
  obtain ⟨fl, inc⟩ := q
  simp only at h1 h3
  subst h1
  simp [queryMiddleware, h2, h3]

/-! ## Further auxiliary lemmas -/

theorem hasKey_setEntry_ne {α : Type} (l : List (String × α)) (k k2 : String) (v : α)
    (h : k ≠ k2) : hasKey (setEntry l k v) k2 = hasKey l k2 := by
  rw [hasKey_eq_isSome, getEntry_setEntry_ne _ _ _ _ h, hasKey_eq_isSome]

theorem countP_zero_of {β : Type} (p : β → Bool) (l : List β)
    (h : ∀ a ∈ l, p a = false) : l.countP p = 0 := by
  induction l with
  | nil => simp
  | cons a t ih =>
    have ha := h a (List.mem_cons_self _ _)
    simp [List.countP_cons, ha, ih (fun b hb => h b (List.mem_cons_of_mem _ hb))]

theorem map_cond_id {β : Type} (p : β → Bool) (g : β → β) (l : List β)
    (h : ∀ a ∈ l, p a = false) : l.map (fun a => if p a then g a else a) = l := by
  induction l with
  | nil => rfl
  | cons a t ih =>
    have ha := h a (List.mem_cons_self _ _)
    simp [ha, ih (fun b hb => h b (List.mem_cons_of_mem _ hb))]

theorem mem_execUpdateMany_snd (f : Filter) (u : List (String × BVal)) (coll : List Doc)
    (d0 : Doc) (hmem : d0 ∈ (execUpdateMany f u coll).2) :
    d0 ∈ coll ∨ ∃ d ∈ coll, d0 = applySet u d := by
  unfold execUpdateMany at hmem
  simp only [List.mem_map] at hmem
  obtain ⟨d, hd, heq⟩ := hmem
  cases hm : matchesFilter f d <;> rw [hm] at heq <;> simp at heq
  · exact Or.inl (heq ▸ hd)
  · exact Or.inr ⟨d, hd, heq.symm⟩

theorem execUpdateMany_of_no_match (f : Filter) (u : List (String × BVal))
    (coll : List Doc) (h : ∀ d ∈ coll, matchesFilter f d = false) :
    execUpdateMany f u coll = (⟨0, 0⟩, coll) := by
  unfold execUpdateMany
  rw [countP_zero_of _ _ h, countP_zero_of _ _ (fun d hd => by simp [h d hd]),
    map_cond_id _ _ _ h]

theorem getF_restoreUpdate_by (opts : Opts) (d : Doc) (hBy : opts.deletedBy = true) :
    getF (applySet (restoreUpdate opts) d) opts.deletedByField = some BVal.vNull := by
  rw [applySet_restoreUpdate, hBy]
  cases hAt : opts.deletedAt <;> simp [getF, getEntry_setEntry_self]

/-! ## Claim C1 -/

/-- Conclusion of claim C1, instantiated at one configuration, filter, id,
time and collection. -/
def DeleteRewriteSpec (opts : Opts) (f : Filter) (id : BVal) (now : Nat)
    (coll : List Doc) : Prop :=
  deleteOne opts f now coll = execUpdateOne f (softUpdate opts now) coll
  ∧ deleteMany opts f now coll = execUpdateMany f (softUpdate opts now) coll
  ∧ findOneAndDelete opts f now coll
      = runFindOneAndUpdate opts ⟨f, false⟩ (softUpdate opts now) false coll
  ∧ findByIdAndDelete opts id now coll
      = runFindOneAndUpdate opts ⟨[("_id", Cond.eqC id)], false⟩
          (softUpdate opts now) false coll
  ∧ (deleteMany opts f now coll).2
      = coll.map (fun d => if matchesFilter f d then applySet (softUpdate opts now) d else d)
  ∧ (deleteOne opts f now coll).2.length = coll.length
  ∧ (deleteMany opts f now coll).2.length = coll.length
  ∧ (findOneAndDelete opts f now coll).2.length = coll.length
  ∧ (findByIdAndDelete opts id now coll).2.length = coll.length
  ∧ (∀ d : Doc,
      getF (applySet (softUpdate opts now) d) opts.deletedField = some (BVal.vBool true))
  ∧ (opts.deletedAt = true → ∀ d : Doc,
      getF (applySet (softUpdate opts now) d) opts.deletedAtField = some (BVal.vTime now))
  ∧ (∀ d0 : Doc, (findOneAndDelete opts f now coll).1 = some d0 → d0 ∈ coll)
  ∧ (∀ d0 : Doc, (findByIdAndDelete opts id now coll).1 = some d0 → d0 ∈ coll)

/-- C1: for every configuration (hence under every read-visibility policy),
each delete-class operation is rewritten to the corresponding update that
sets the deletion flag to `true` and, when the timestamp feature is enabled,
the deletion timestamp to the current time; the caller's filter is handed to
the update unchanged; the collection keeps its length (no physical removal);
and the find-and-delete variants return the pre-update document state (an
element of the original collection). -/
theorem c1_delete_class_rewrite (opts : Opts) (f : Filter) (id : BVal) (now : Nat)
    (coll : List Doc) (hne : opts.deletedField ≠ opts.deletedAtField) :
    DeleteRewriteSpec opts f id now coll := by
  refine ⟨rfl, rfl, rfl, rfl, rfl, execUpdateOne_snd_length _ _ _, ?_, ?_, ?_, ?_, ?_, ?_, ?_⟩
  · simp [deleteMany, execUpdateMany]
  · exact execFindOneAndUpdate_snd_length _ _ _ _
  · exact execFindOneAndUpdate_snd_length _ _ _ _
  · exact fun d => getF_softUpdate_flag opts now d hne
  · exact fun hAt d => getF_softUpdate_time opts now d hAt
  · exact fun d0 h => execFindOneAndUpdate_fst_mem _ _ _ _ h
  · exact fun d0 h => execFindOneAndUpdate_fst_mem _ _ _ _ h

/-- Witness for C1 at the default configuration. -/
theorem c1_delete_class_rewrite_witness :
    defaultOpts.deletedField ≠ defaultOpts.deletedAtField
    ∧ DeleteRewriteSpec defaultOpts [] (BVal.vId 1) 0 [] :=
  ⟨by decide, c1_delete_class_rewrite defaultOpts [] (BVal.vId 1) 0 [] (by decide)⟩

/-! ## Claim C2 -/

/-- C2: under policy `Default`, each of the four qualifying read-class
operations gets the implicit `deletedField != true` condition appended to
its filter, unless the operation carries the include-deleted flag or its
filter already has an entry for the deletion-flag field (whatever the
condition) — in those cases the query is left exactly as supplied. -/
theorem c2_default_policy_injection (opts : Opts) (op : ReadOp) (q : QueryState)
    (hpol : opts.activeArchive = Policy.Default) (hf : opts.deletedField ≠ "") :
    (q.includeDeleted = true → preRead opts op q = q)
    ∧ (hasKey q.filter opts.deletedField = true → preRead opts op q = q)
    ∧ (q.includeDeleted = false → hasKey q.filter opts.deletedField = false →
        preRead opts op q
          = ⟨q.filter ++ [(opts.deletedField, Cond.neC (BVal.vBool true))], false⟩) := by
  unfold preRead
  rw [preQuery_of_default opts q hpol]
  refine ⟨fun h => queryMiddleware_skip_flag opts q h,
    fun h => queryMiddleware_skip_key opts q h,
    fun h1 h3 => queryMiddleware_inject opts q h1 hf h3⟩

/-- Witness for C2 at the default configuration and the empty `find` query. -/
theorem c2_default_policy_injection_witness :
    defaultOpts.activeArchive = Policy.Default ∧ defaultOpts.deletedField ≠ ""
    ∧ (((⟨[], false⟩ : QueryState).includeDeleted = true →
          preRead defaultOpts ReadOp.find ⟨[], false⟩ = ⟨[], false⟩)
       ∧ (hasKey (⟨[], false⟩ : QueryState).filter defaultOpts.deletedField = true →
          preRead defaultOpts ReadOp.find ⟨[], false⟩ = ⟨[], false⟩)
       ∧ ((⟨[], false⟩ : QueryState).includeDeleted = false →
          hasKey (⟨[], false⟩ : QueryState).filter defaultOpts.deletedField = false →
          preRead defaultOpts ReadOp.find ⟨[], false⟩
            = ⟨[] ++ [(defaultOpts.deletedField, Cond.neC (BVal.vBool true))], false⟩)) :=
  ⟨rfl, by decide,
    c2_default_policy_injection defaultOpts ReadOp.find ⟨[], false⟩ rfl (by decide)⟩

/-! ## Claim C3 -/

/-- C3 counterexample: the static `restore` builds its match condition with a
spread-overwrite, not an intersection. With the caller filter
`{deleted: false}` on a collection holding one deleted document, the bulk
update matches and modifies that document, although the caller's filter
intersected with `deleted == true` (the two conditions conjoined) matches no
document at all. -/
theorem c3_restore_overwrite_counterexample :
    (restoreStatic defaultOpts [("deleted", Cond.eqC (BVal.vBool false))]
      [[("_id", BVal.vId 1), ("deleted", BVal.vBool true),
        ("deletedAt", BVal.vTime 5)]]).1.matchedCount = 1
    ∧ (restoreStatic defaultOpts [("deleted", Cond.eqC (BVal.vBool false))]
      [[("_id", BVal.vId 1), ("deleted", BVal.vBool true),
        ("deletedAt", BVal.vTime 5)]]).1.modifiedCount = 1
    ∧ matchesFilter
        ([("deleted", Cond.eqC (BVal.vBool false))]
          ++ [("deleted", Cond.eqC (BVal.vBool true))])
        [("_id", BVal.vId 1), ("deleted", BVal.vBool true), ("deletedAt", BVal.vTime 5)]
      = false := by
  decide

/-- Conclusion of the amended claim C3 at one configuration, filter and
collection. -/
def RestoreStaticSpec (opts : Opts) (f : Filter) (coll : List Doc) : Prop :=
  restoreStatic opts f coll
    = execUpdateMany (setEntry f opts.deletedField (Cond.eqC (BVal.vBool true)))
        (restoreUpdate opts) coll
  ∧ (hasKey f opts.deletedField = false → ∀ d : Doc,
      matchesFilter (setEntry f opts.deletedField (Cond.eqC (BVal.vBool true))) d
        = (matchesFilter f d && decide (getF d opts.deletedField = some (BVal.vBool true))))
  ∧ (∀ d : Doc,
      matchesFilter (setEntry f opts.deletedField (Cond.eqC (BVal.vBool true))) d = true →
      getF d opts.deletedField = some (BVal.vBool true))
  ∧ (restoreStatic opts f coll).2
      = coll.map (fun d =>
          if matchesFilter (setEntry f opts.deletedField (Cond.eqC (BVal.vBool true))) d
          then applySet (restoreUpdate opts) d else d)
  ∧ (restoreStatic opts f coll).2.length = coll.length
  ∧ (∀ d : Doc,
      getF (applySet (restoreUpdate opts) d) opts.deletedField = some (BVal.vBool false))
  ∧ (opts.deletedAt = true → ∀ d : Doc,
      getF (applySet (restoreUpdate opts) d) opts.deletedAtField = some BVal.vNull)
  ∧ (opts.deletedBy = true → ∀ d : Doc,
      getF (applySet (restoreUpdate opts) d) opts.deletedByField = some BVal.vNull)
  ∧ ((∀ d ∈ coll,
        matchesFilter (setEntry f opts.deletedField (Cond.eqC (BVal.vBool true))) d = false) →
      restoreStatic opts f coll = (⟨0, 0⟩, coll))

/-- Amended C3: the bulk match condition is the caller's filter with its
deletion-flag entry (if any) overwritten by `deleted == true`; when the
caller's filter does not constrain the deletion-flag field this coincides
with the intersection; a document is matched only if its deletion flag is
currently `true`, matched documents get the flag reset and each enabled
feature field set to null, the bulk matched/modified result is returned,
and a filter matching nothing is a silent no-op. -/
theorem c3_restore_static_amended (opts : Opts) (f : Filter) (coll : List Doc)
    (h1 : opts.deletedAtField ≠ opts.deletedField)
    (h2 : opts.deletedByField ≠ opts.deletedField) :
    RestoreStaticSpec opts f coll := by
  refine ⟨rfl, ?_, ?_, rfl, ?_, ?_, ?_, ?_, ?_⟩
  · intro hk d
    rw [setEntry_of_not_hasKey f _ _ hk, matchesFilter_append, matchesFilter_singleton]
    simp [evalCond]
  · exact fun d h => eq_some_true_of_matches_setEntry f opts.deletedField d h
  · simp [restoreStatic, execUpdateMany]
  · exact fun d => getF_restoreUpdate_flag opts d h1 h2
  · intro hAt d
    by_cases h3 : opts.deletedByField = opts.deletedAtField
    · rw [applySet_restoreUpdate, hAt]
      cases hBy : opts.deletedBy <;> simp [h3, getF, getEntry_setEntry_self]
    · exact getF_restoreUpdate_time opts d hAt h3
  · exact fun hBy d => getF_restoreUpdate_by opts d hBy
  · intro h
    exact execUpdateMany_of_no_match _ _ _ h

/-- Witness for the amended C3 at the default configuration. -/
theorem c3_restore_static_amended_witness :
    defaultOpts.deletedAtField ≠ defaultOpts.deletedField
    ∧ defaultOpts.deletedByField ≠ defaultOpts.deletedField
    ∧ RestoreStaticSpec defaultOpts [] [] :=
  ⟨by decide, by decide, c3_restore_static_amended defaultOpts [] [] (by decide) (by decide)⟩

/-! ## Claim C4 -/

/-- C4: under policy `Default`, only the first pipeline stage is inspected:
when it does not constrain the deletion-flag field, a `$match` stage with
`deletedField != true` is prepended; when it does, the pipeline is left
unchanged; and a deletion filter sitting in a later stage is not detected —
the extra stage is still prepended. -/
theorem c4_aggregate_first_stage_only (opts : Opts) (p : List Stage)
    (hpol : opts.activeArchive = Policy.Default) (hf : opts.deletedField ≠ "") :
    (firstStageConstrains p opts.deletedField = false →
      preAggregate opts ⟨p, false⟩
        = ⟨Stage.smatch [(opts.deletedField, Cond.neC (BVal.vBool true))] :: p, false⟩)
    ∧ (firstStageConstrains p opts.deletedField = true →
      preAggregate opts ⟨p, false⟩ = ⟨p, false⟩)
    ∧ (∀ s0 : Stage, ∀ rest : List Stage, p = s0 :: rest →
        stageConstrains s0 opts.deletedField = false →
        (∃ s ∈ rest, stageConstrains s opts.deletedField = true) →
        preAggregate opts ⟨p, false⟩
          = ⟨Stage.smatch [(opts.deletedField, Cond.neC (BVal.vBool true))] :: p, false⟩) := by
  refine ⟨?_, ?_, ?_⟩
  · intro h
    simp [preAggregate, hpol, aggMiddleware, hf, h]
  · intro h
    simp [preAggregate, hpol, aggMiddleware, hf, h]
  · intro s0 rest hp hs0 _
    subst hp
    have hfirst : firstStageConstrains (s0 :: rest) opts.deletedField = false := by
      simp [firstStageConstrains, hs0]
    simp [preAggregate, hpol, aggMiddleware, hf, hfirst]

/-- Witness for C4 at the default configuration and a one-stage pipeline
whose later stage carries the deletion filter. -/
theorem c4_aggregate_first_stage_only_witness :
    defaultOpts.activeArchive = Policy.Default ∧ defaultOpts.deletedField ≠ ""
    ∧ ((firstStageConstrains [Stage.sother "group"] defaultOpts.deletedField = false →
        preAggregate defaultOpts ⟨[Stage.sother "group"], false⟩
          = ⟨Stage.smatch [(defaultOpts.deletedField, Cond.neC (BVal.vBool true))]
              :: [Stage.sother "group"], false⟩)
      ∧ (firstStageConstrains [Stage.sother "group"] defaultOpts.deletedField = true →
        preAggregate defaultOpts ⟨[Stage.sother "group"], false⟩
          = ⟨[Stage.sother "group"], false⟩)
      ∧ (∀ s0 : Stage, ∀ rest : List Stage, [Stage.sother "group"] = s0 :: rest →
          stageConstrains s0 defaultOpts.deletedField = false →
          (∃ s ∈ rest, stageConstrains s defaultOpts.deletedField = true) →
          preAggregate defaultOpts ⟨[Stage.sother "group"], false⟩
            = ⟨Stage.smatch [(defaultOpts.deletedField, Cond.neC (BVal.vBool true))]
                :: [Stage.sother "group"], false⟩)) :=
  ⟨rfl, by decide,
    c4_aggregate_first_stage_only defaultOpts [Stage.sother "group"] rfl (by decide)⟩

/-! ## Claim C5 -/

/-- Under policy `Default` with a non-constraining filter, a rewritten
find-and-delete call sees the injected `deletedField != true` condition, so
it matches nothing in a collection in which every filter match is already
flagged deleted. -/
theorem runFindOneAndUpdate_skips_deleted (opts : Opts) (f : Filter)
    (u : List (String × BVal)) (rn : Bool) (coll : List Doc)
    (hpol : opts.activeArchive = Policy.Default) (hf : opts.deletedField ≠ "")
    (hkey : hasKey f opts.deletedField = false)
    (hdel : ∀ d ∈ coll, matchesFilter f d = true →
      getF d opts.deletedField = some (BVal.vBool true)) :
    runFindOneAndUpdate opts ⟨f, false⟩ u rn coll = (none, coll) := by
  have hq : preRead opts ReadOp.findOneAndUpdate ⟨f, false⟩
      = ⟨f ++ [(opts.deletedField, Cond.neC (BVal.vBool true))], false⟩ := by
    unfold preRead
    rw [preQuery_of_default _ _ hpol]
    exact queryMiddleware_inject _ _ rfl hf hkey
  unfold runFindOneAndUpdate
  rw [hq]
  apply execFindOneAndUpdate_of_no_match
  intro d hd
  rw [matchesFilter_append]
  cases hm : matchesFilter f d
  · simp
  · have hg := hdel d hd hm
    simp only [hm, Bool.true_and, matchesFilter_singleton]
    exact evalCond_ne_true_of_deleted _ hg

/-- C5: under policy `Default`, `findOneAndDelete` (and `findByIdAndDelete`)
delegate to `findOneAndUpdate`, whose pre middleware injects
`deletedField != true` — so on a collection in which every caller-filter
match is already flagged deleted they return `null` and change nothing —
while `deleteOne`/`deleteMany` run the caller's filter with no injection and
still match those documents. -/
theorem c5_find_delete_injected_delete_not (opts : Opts) (f : Filter) (id : BVal)
    (now : Nat) (coll : List Doc)
    (hpol : opts.activeArchive = Policy.Default) (hf : opts.deletedField ≠ "")
    (hkey : hasKey f opts.deletedField = false)
    (hdel : ∀ d ∈ coll, matchesFilter f d = true →
      getF d opts.deletedField = some (BVal.vBool true)) :
    findOneAndDelete opts f now coll = (none, coll)
    ∧ (deleteOne opts f now coll).1.matchedCount
        = (if coll.any (fun d => matchesFilter f d) then 1 else 0)
    ∧ (deleteMany opts f now coll).1.matchedCount
        = coll.countP (fun d => matchesFilter f d)
    ∧ (opts.deletedField ≠ "_id" →
        (∀ d ∈ coll, matchesFilter [("_id", Cond.eqC id)] d = true →
          getF d opts.deletedField = some (BVal.vBool true)) →
        findByIdAndDelete opts id now coll = (none, coll)) := by
  refine ⟨?_, execUpdateOne_matched _ _ _, rfl, ?_⟩
  · exact runFindOneAndUpdate_skips_deleted opts f _ false coll hpol hf hkey hdel
  · intro hid hdel2
    have hkey2 : hasKey [("_id", Cond.eqC id)] opts.deletedField = false := by
      simp [hasKey]
      exact Ne.symm hid
    exact runFindOneAndUpdate_skips_deleted opts _ _ false coll hpol hf hkey2 hdel2

/-- Witness for C5: one document matching the caller's filter and already
flagged deleted. -/
theorem c5_find_delete_injected_delete_not_witness :
    defaultOpts.activeArchive = Policy.Default ∧ defaultOpts.deletedField ≠ ""
    ∧ hasKey [("name", Cond.eqC (BVal.vStr "a"))] defaultOpts.deletedField = false
    ∧ (∀ d ∈ [[("name", BVal.vStr "a"), ("deleted", BVal.vBool true)]],
        matchesFilter [("name", Cond.eqC (BVal.vStr "a"))] d = true →
        getF d defaultOpts.deletedField = some (BVal.vBool true))
    ∧ (findOneAndDelete defaultOpts [("name", Cond.eqC (BVal.vStr "a"))] 7
          [[("name", BVal.vStr "a"), ("deleted", BVal.vBool true)]]
        = (none, [[("name", BVal.vStr "a"), ("deleted", BVal.vBool true)]])
      ∧ (deleteOne defaultOpts [("name", Cond.eqC (BVal.vStr "a"))] 7
            [[("name", BVal.vStr "a"), ("deleted", BVal.vBool true)]]).1.matchedCount
          = (if ([[("name", BVal.vStr "a"), ("deleted", BVal.vBool true)]].any
              (fun d => matchesFilter [("name", Cond.eqC (BVal.vStr "a"))] d)) then 1 else 0)
      ∧ (deleteMany defaultOpts [("name", Cond.eqC (BVal.vStr "a"))] 7
            [[("name", BVal.vStr "a"), ("deleted", BVal.vBool true)]]).1.matchedCount
          = [[("name", BVal.vStr "a"), ("deleted", BVal.vBool true)]].countP
              (fun d => matchesFilter [("name", Cond.eqC (BVal.vStr "a"))] d)
      ∧ (defaultOpts.deletedField ≠ "_id" →
          (∀ d ∈ [[("name", BVal.vStr "a"), ("deleted", BVal.vBool true)]],
            matchesFilter [("_id", Cond.eqC (BVal.vId 1))] d = true →
            getF d defaultOpts.deletedField = some (BVal.vBool true)) →
          findByIdAndDelete defaultOpts (BVal.vId 1) 7
              [[("name", BVal.vStr "a"), ("deleted", BVal.vBool true)]]
            = (none, [[("name", BVal.vStr "a"), ("deleted", BVal.vBool true)]]))) :=
  ⟨rfl, by decide, by decide, by decide,
    c5_find_delete_injected_delete_not defaultOpts [("name", Cond.eqC (BVal.vStr "a"))]
      (BVal.vId 1) 7 [[("name", BVal.vStr "a"), ("deleted", BVal.vBool true)]]
      rfl (by decide) (by decide) (by decide)⟩

/-! ## Claim C6 -/

/-- C6: under policy `Default`, `.deleted()` on a fresh query adds the
explicit `deleted == true` condition; that entry suppresses the middleware
injection, and the resulting filter selects exactly the documents whose
deletion flag equals `true` (not the empty set). Symmetrically `.active()`
adds `deleted != true`, the middleware leaves it alone, and it equals the
very constraint the middleware itself would inject on a fresh query. -/
theorem c6_helpers_compose_with_middleware (opts : Opts)
    (hpol : opts.activeArchive = Policy.Default) (hf : opts.deletedField ≠ "") :
    deleted opts ⟨[], false⟩
      = Except.ok ⟨[(opts.deletedField, Cond.eqC (BVal.vBool true))], false⟩
    ∧ preQuery opts ⟨[(opts.deletedField, Cond.eqC (BVal.vBool true))], false⟩
      = ⟨[(opts.deletedField, Cond.eqC (BVal.vBool true))], false⟩
    ∧ (∀ d : Doc,
        matchesFilter [(opts.deletedField, Cond.eqC (BVal.vBool true))] d = true
          ↔ getF d opts.deletedField = some (BVal.vBool true))
    ∧ active opts ⟨[], false⟩
      = Except.ok ⟨[(opts.deletedField, Cond.neC (BVal.vBool true))], false⟩
    ∧ preQuery opts ⟨[(opts.deletedField, Cond.neC (BVal.vBool true))], false⟩
      = ⟨[(opts.deletedField, Cond.neC (BVal.vBool true))], false⟩
    ∧ (preQuery opts ⟨[], false⟩).filter
      = [(opts.deletedField, Cond.neC (BVal.vBool true))] := by
  have hkey : ∀ c : Cond, hasKey [(opts.deletedField, c)] opts.deletedField = true := by
    intro c
    simp [hasKey]
  refine ⟨?_, ?_, ?_, ?_, ?_, ?_⟩
  · simp [deleted, hf, whereCond, setEntry]
  · rw [preQuery_of_default _ _ hpol]
    exact queryMiddleware_skip_key _ _ (hkey _)
  · intro d
    rw [matchesFilter_singleton]
    simp [evalCond]
  · simp [active, hf, whereCond, setEntry]
  · rw [preQuery_of_default _ _ hpol]
    exact queryMiddleware_skip_key _ _ (hkey _)
  · rw [preQuery_of_default _ _ hpol,
      queryMiddleware_inject _ _ rfl hf (by simp [hasKey])]
    simp

/-- Witness for C6 at the default configuration. -/
theorem c6_helpers_compose_with_middleware_witness :
    defaultOpts.activeArchive = Policy.Default ∧ defaultOpts.deletedField ≠ ""
    ∧ (deleted defaultOpts ⟨[], false⟩
        = Except.ok ⟨[(defaultOpts.deletedField, Cond.eqC (BVal.vBool true))], false⟩
      ∧ preQuery defaultOpts ⟨[(defaultOpts.deletedField, Cond.eqC (BVal.vBool true))], false⟩
        = ⟨[(defaultOpts.deletedField, Cond.eqC (BVal.vBool true))], false⟩
      ∧ (∀ d : Doc,
          matchesFilter [(defaultOpts.deletedField, Cond.eqC (BVal.vBool true))] d = true
            ↔ getF d defaultOpts.deletedField = some (BVal.vBool true))
      ∧ active defaultOpts ⟨[], false⟩
        = Except.ok ⟨[(defaultOpts.deletedField, Cond.neC (BVal.vBool true))], false⟩
      ∧ preQuery defaultOpts ⟨[(defaultOpts.deletedField, Cond.neC (BVal.vBool true))], false⟩
        = ⟨[(defaultOpts.deletedField, Cond.neC (BVal.vBool true))], false⟩
      ∧ (preQuery defaultOpts ⟨[], false⟩).filter
        = [(defaultOpts.deletedField, Cond.neC (BVal.vBool true))]) :=
  ⟨rfl, by decide, c6_helpers_compose_with_middleware defaultOpts rfl (by decide)⟩

/-! ## Claim C7 -/

/-- C7: `withDeleted` only sets the operation-scoped include-deleted flag
and leaves the filter conditions untouched; under `Scope` and `All` the
query and its results are unchanged, and under `Default` the effective
filter is exactly the caller's filter, so only the automatic exclusion is
disabled. -/
theorem c7_withDeleted_flag_only (opts : Opts) (op : ReadOp) (q : QueryState)
    (coll : List Doc) :
    (withDeleted q).filter = q.filter
    ∧ (withDeleted q).includeDeleted = true
    ∧ (opts.activeArchive ≠ Policy.Default →
        preRead opts op (withDeleted q) = withDeleted q
        ∧ execFind opts (withDeleted q) coll = execFind opts q coll)
    ∧ (opts.activeArchive = Policy.Default →
        (preRead opts op (withDeleted q)).filter = q.filter
        ∧ execFind opts (withDeleted q) coll
            = coll.filter (fun d => matchesFilter q.filter d)) := by
  refine ⟨rfl, rfl, ?_, ?_⟩
  · intro hnd
    constructor
    · simp [preRead, preQuery, hnd]
    · simp [execFind, preQuery, hnd, withDeleted]
  · intro hpol
    have hskip : queryMiddleware opts (withDeleted q) = withDeleted q :=
      queryMiddleware_skip_flag _ _ rfl
    constructor
    · unfold preRead
      rw [preQuery_of_default _ _ hpol, hskip]
      rfl
    · unfold execFind
      rw [preQuery_of_default _ _ hpol, hskip]
      rfl

/-- Witness for C7 (its inner implications instantiated at the default,
`Default`-policy configuration). -/
theorem c7_withDeleted_flag_only_witness :
    (withDeleted ⟨[("a", Cond.eqC BVal.vNull)], false⟩).filter
      = (⟨[("a", Cond.eqC BVal.vNull)], false⟩ : QueryState).filter
    ∧ (withDeleted ⟨[("a", Cond.eqC BVal.vNull)], false⟩).includeDeleted = true
    ∧ (defaultOpts.activeArchive ≠ Policy.Default →
        preRead defaultOpts ReadOp.find (withDeleted ⟨[("a", Cond.eqC BVal.vNull)], false⟩)
          = withDeleted ⟨[("a", Cond.eqC BVal.vNull)], false⟩
        ∧ execFind defaultOpts (withDeleted ⟨[("a", Cond.eqC BVal.vNull)], false⟩) []
          = execFind defaultOpts ⟨[("a", Cond.eqC BVal.vNull)], false⟩ [])
    ∧ (defaultOpts.activeArchive = Policy.Default →
        (preRead defaultOpts ReadOp.find
            (withDeleted ⟨[("a", Cond.eqC BVal.vNull)], false⟩)).filter
          = (⟨[("a", Cond.eqC BVal.vNull)], false⟩ : QueryState).filter
        ∧ execFind defaultOpts (withDeleted ⟨[("a", Cond.eqC BVal.vNull)], false⟩) []
          = [].filter (fun d => matchesFilter [("a", Cond.eqC BVal.vNull)] d)) :=
  c7_withDeleted_flag_only defaultOpts ReadOp.find ⟨[("a", Cond.eqC BVal.vNull)], false⟩ []

/-! ## Claim C9 -/

/-- C9: whenever the configured deletion-flag field name is empty (falsy),
the `active` and `deleted` query helpers raise synchronously inside the
modifier call, while the pre-execution query and aggregate middleware
silently skip injection and leave the operation unchanged; configuration
resolution itself never rejects such a name. -/
theorem c9_falsy_deleted_field (opts : Opts) (q : QueryState) (a : AggState)
    (po : ParanoiaOptions) (hf : opts.deletedField = "") :
    active opts q = Except.error "deletedField is required for active query helper"
    ∧ deleted opts q = Except.error "deletedField is required for deleted query helper"
    ∧ queryMiddleware opts q = q
    ∧ aggMiddleware opts a = a
    ∧ (resolveOptions { po with deletedField := some "" }).deletedField = "" := by
  refine ⟨by simp [active, hf], by simp [deleted, hf], ?_, ?_, rfl⟩
  · unfold queryMiddleware
    split
    · rfl
    · simp [hf]
  · unfold aggMiddleware
    split
    · rfl
    · simp [hf]

/-- Witness for C9 at a configuration whose deletion-flag field name is
empty. -/
theorem c9_falsy_deleted_field_witness :
    (resolveOptions ⟨none, none, none, none, some "", none, none⟩).deletedField = ""
    ∧ (active (resolveOptions ⟨none, none, none, none, some "", none, none⟩) ⟨[], false⟩
        = Except.error "deletedField is required for active query helper"
      ∧ deleted (resolveOptions ⟨none, none, none, none, some "", none, none⟩) ⟨[], false⟩
        = Except.error "deletedField is required for deleted query helper"
      ∧ queryMiddleware (resolveOptions ⟨none, none, none, none, some "", none, none⟩)
          ⟨[], false⟩ = ⟨[], false⟩
      ∧ aggMiddleware (resolveOptions ⟨none, none, none, none, some "", none, none⟩)
          ⟨[], false⟩ = ⟨[], false⟩
      ∧ (resolveOptions { (⟨none, none, none, none, none, none, none⟩ : ParanoiaOptions) with
            deletedField := some "" }).deletedField = "") :=
  ⟨rfl, c9_falsy_deleted_field (resolveOptions ⟨none, none, none, none, some "", none, none⟩)
    ⟨[], false⟩ ⟨[], false⟩ ⟨none, none, none, none, none, none, none⟩ rfl⟩

/-! ## Claim C10 -/

/-- C10: `deleteOne`/`deleteMany` put no deletion-flag restriction on the
caller's filter: a document whose deletion flag is already `true` is matched
again by a delete whose filter selects it, and its deletion timestamp is
overwritten with the fresh current time — so delete-class operations are not
idempotent on the deletion-timestamp field. -/
theorem c10_delete_overwrites_timestamp (opts : Opts) (f : Filter) (d : Doc) (t : Nat)
    (hAt : opts.deletedAt = true) (h1 : opts.deletedField ≠ opts.deletedAtField)
    (hm : matchesFilter f d = true)
    (_hdel : getF d opts.deletedField = some (BVal.vBool true)) :
    (deleteOne opts f t [d]).1.matchedCount = 1
    ∧ (deleteOne opts f t [d]).2 = [applySet (softUpdate opts t) d]
    ∧ getF (applySet (softUpdate opts t) d) opts.deletedAtField = some (BVal.vTime t)
    ∧ getF (applySet (softUpdate opts t) d) opts.deletedField = some (BVal.vBool true)
    ∧ (deleteMany opts f t [d]).1.matchedCount = 1 := by
  refine ⟨?_, ?_, getF_softUpdate_time _ _ _ hAt, getF_softUpdate_flag _ _ _ h1, ?_⟩
  · simp [deleteOne, execUpdateOne, hm]
  · simp [deleteOne, execUpdateOne, hm]
  · simp [deleteMany, execUpdateMany, hm]

/-- Witness for C10: a second delete at time 9 of a document deleted at
time 5. -/
theorem c10_delete_overwrites_timestamp_witness :
    defaultOpts.deletedAt = true
    ∧ defaultOpts.deletedField ≠ defaultOpts.deletedAtField
    ∧ matchesFilter [("name", Cond.eqC (BVal.vStr "a"))]
        [("name", BVal.vStr "a"), ("deleted", BVal.vBool true),
          ("deletedAt", BVal.vTime 5)] = true
    ∧ getF [("name", BVal.vStr "a"), ("deleted", BVal.vBool true),
          ("deletedAt", BVal.vTime 5)] defaultOpts.deletedField = some (BVal.vBool true)
    ∧ ((deleteOne defaultOpts [("name", Cond.eqC (BVal.vStr "a"))] 9
          [[("name", BVal.vStr "a"), ("deleted", BVal.vBool true),
            ("deletedAt", BVal.vTime 5)]]).1.matchedCount = 1
      ∧ (deleteOne defaultOpts [("name", Cond.eqC (BVal.vStr "a"))] 9
          [[("name", BVal.vStr "a"), ("deleted", BVal.vBool true),
            ("deletedAt", BVal.vTime 5)]]).2
        = [applySet (softUpdate defaultOpts 9)
            [("name", BVal.vStr "a"), ("deleted", BVal.vBool true),
              ("deletedAt", BVal.vTime 5)]]
      ∧ getF (applySet (softUpdate defaultOpts 9)
            [("name", BVal.vStr "a"), ("deleted", BVal.vBool true),
              ("deletedAt", BVal.vTime 5)]) defaultOpts.deletedAtField
        = some (BVal.vTime 9)
      ∧ getF (applySet (softUpdate defaultOpts 9)
            [("name", BVal.vStr "a"), ("deleted", BVal.vBool true),
              ("deletedAt", BVal.vTime 5)]) defaultOpts.deletedField
        = some (BVal.vBool true)
      ∧ (deleteMany defaultOpts [("name", Cond.eqC (BVal.vStr "a"))] 9
          [[("name", BVal.vStr "a"), ("deleted", BVal.vBool true),
            ("deletedAt", BVal.vTime 5)]]).1.matchedCount = 1) :=
  ⟨rfl, by decide, by decide, by decide,
    c10_delete_overwrites_timestamp defaultOpts [("name", Cond.eqC (BVal.vStr "a"))]
      [("name", BVal.vStr "a"), ("deleted", BVal.vBool true), ("deletedAt", BVal.vTime 5)]
      9 rfl (by decide) (by decide) (by decide)⟩

/-! ## Claim C8 -/

theorem hasKey_setEntry_self {α : Type} (l : List (String × α)) (k : String) (v : α) :
    hasKey (setEntry l k v) k = true := by
  rw [hasKey_eq_isSome, getEntry_setEntry_self]
  rfl

/-- The deletion-timestamp invariant: the timestamp field is non-null
exactly when the deletion flag is `true`. -/
def ParanoiaInvariant (opts : Opts) (d : Doc) : Prop :=
  (getF d opts.deletedAtField ≠ none ∧ getF d opts.deletedAtField ≠ some BVal.vNull)
    ↔ getF d opts.deletedField = some (BVal.vBool true)

theorem newDocument_fields (opts : Opts) (base : Doc)
    (hAt : opts.deletedAt = true)
    (h1 : opts.deletedField ≠ opts.deletedAtField)
    (hkF : hasKey base opts.deletedField = false)
    (hkA : hasKey base opts.deletedAtField = false) :
    getF (newDocument opts base) opts.deletedField = some (BVal.vBool false)
    ∧ getF (newDocument opts base) opts.deletedAtField = some BVal.vNull := by
  have hfold : newDocument opts base
      = (if opts.deletedBy then
          (if hasKey (setEntry (setEntry base opts.deletedField (BVal.vBool false))
                opts.deletedAtField BVal.vNull) opts.deletedByField then
            setEntry (setEntry base opts.deletedField (BVal.vBool false))
              opts.deletedAtField BVal.vNull
          else
            setEntry (setEntry (setEntry base opts.deletedField (BVal.vBool false))
              opts.deletedAtField BVal.vNull) opts.deletedByField BVal.vNull)
        else
          setEntry (setEntry base opts.deletedField (BVal.vBool false))
            opts.deletedAtField BVal.vNull) := by
    cases hBy : opts.deletedBy <;>
      simp [newDocument, schemaDefaults, hAt, hBy, hkF,
        hasKey_setEntry_ne _ _ _ _ h1, hkA]
  rw [hfold]
  cases hBy : opts.deletedBy
  · simp only [Bool.false_eq_true, if_false]
    constructor
    · simp only [getF]
      rw [getEntry_setEntry_ne _ _ _ _ (Ne.symm h1), getEntry_setEntry_self]
    · simp only [getF]
      rw [getEntry_setEntry_self]
  · simp only [if_true]
    by_cases hk3 : hasKey (setEntry (setEntry base opts.deletedField (BVal.vBool false))
        opts.deletedAtField BVal.vNull) opts.deletedByField = true
    · rw [if_pos hk3]
      constructor
      · simp only [getF]
        rw [getEntry_setEntry_ne _ _ _ _ (Ne.symm h1), getEntry_setEntry_self]
      · simp only [getF]
        rw [getEntry_setEntry_self]
    · rw [if_neg hk3]
      have hby1 : opts.deletedByField ≠ opts.deletedField := by
        intro h
        apply hk3
        rw [h, hasKey_setEntry_ne _ _ _ _ (Ne.symm h1), hasKey_setEntry_self]
      have hby2 : opts.deletedByField ≠ opts.deletedAtField := by
        intro h
        apply hk3
        rw [h, hasKey_setEntry_self]
      constructor
      · simp only [getF]
        rw [getEntry_setEntry_ne _ _ _ _ hby1,
          getEntry_setEntry_ne _ _ _ _ (Ne.symm h1), getEntry_setEntry_self]
      · simp only [getF]
        rw [getEntry_setEntry_ne _ _ _ _ hby2, getEntry_setEntry_self]

theorem paranoiaInvariant_softUpdate (opts : Opts) (now : Nat) (d : Doc)
    (hAt : opts.deletedAt = true) (h1 : opts.deletedField ≠ opts.deletedAtField) :
    ParanoiaInvariant opts (applySet (softUpdate opts now) d) := by
  unfold ParanoiaInvariant
  rw [getF_softUpdate_time _ _ _ hAt, getF_softUpdate_flag _ _ _ h1]
  simp

theorem paranoiaInvariant_restoreUpdate (opts : Opts) (d : Doc)
    (hAt : opts.deletedAt = true) (h1 : opts.deletedField ≠ opts.deletedAtField)
    (h2 : opts.deletedByField ≠ opts.deletedField)
    (h3 : opts.deletedByField ≠ opts.deletedAtField) :
    ParanoiaInvariant opts (applySet (restoreUpdate opts) d) := by
  unfold ParanoiaInvariant
  rw [getF_restoreUpdate_time _ _ hAt h3, getF_restoreUpdate_flag _ _ (Ne.symm h1) h2]
  simp

/-- Conclusion of claim C8: the invariant holds for newly created documents
and is preserved by every overlay operation. -/
def InvariantPreservation (opts : Opts) : Prop :=
  (∀ base : Doc, hasKey base opts.deletedField = false →
      hasKey base opts.deletedAtField = false →
      ParanoiaInvariant opts (newDocument opts base))
  ∧ (∀ (f : Filter) (now : Nat) (coll : List Doc),
      (∀ d ∈ coll, ParanoiaInvariant opts d) →
      ∀ d0 ∈ (deleteOne opts f now coll).2, ParanoiaInvariant opts d0)
  ∧ (∀ (f : Filter) (now : Nat) (coll : List Doc),
      (∀ d ∈ coll, ParanoiaInvariant opts d) →
      ∀ d0 ∈ (deleteMany opts f now coll).2, ParanoiaInvariant opts d0)
  ∧ (∀ (f : Filter) (now : Nat) (coll : List Doc),
      (∀ d ∈ coll, ParanoiaInvariant opts d) →
      ∀ d0 ∈ (findOneAndDelete opts f now coll).2, ParanoiaInvariant opts d0)
  ∧ (∀ (id : BVal) (now : Nat) (coll : List Doc),
      (∀ d ∈ coll, ParanoiaInvariant opts d) →
      ∀ d0 ∈ (findByIdAndDelete opts id now coll).2, ParanoiaInvariant opts d0)
  ∧ (∀ d : Doc, ParanoiaInvariant opts (restoreMethod opts d))
  ∧ (∀ (f : Filter) (coll : List Doc),
      (∀ d ∈ coll, ParanoiaInvariant opts d) →
      ∀ d0 ∈ (restoreStatic opts f coll).2, ParanoiaInvariant opts d0)

/-- C8: with the timestamp feature enabled (and the three configured field
names pairwise distinct), the invariant "deletion-timestamp non-null iff
deletion-flag true" holds for every newly created document and is preserved
by the four delete-class rewrites, the instance-level restore and the
collection-level restore. -/
theorem c8_timestamp_flag_invariant (opts : Opts)
    (hAt : opts.deletedAt = true)
    (h1 : opts.deletedField ≠ opts.deletedAtField)
    (h2 : opts.deletedByField ≠ opts.deletedField)
    (h3 : opts.deletedByField ≠ opts.deletedAtField) :
    InvariantPreservation opts := by
  have hsoft : ∀ (now : Nat) (d : Doc),
      ParanoiaInvariant opts (applySet (softUpdate opts now) d) :=
    fun now d => paranoiaInvariant_softUpdate opts now d hAt h1
  have hrest : ∀ d : Doc, ParanoiaInvariant opts (applySet (restoreUpdate opts) d) :=
    fun d => paranoiaInvariant_restoreUpdate opts d hAt h1 h2 h3
  refine ⟨?_, ?_, ?_, ?_, ?_, hrest, ?_⟩
  · intro base hkF hkA
    obtain ⟨hfF, hfA⟩ := newDocument_fields opts base hAt h1 hkF hkA
    unfold ParanoiaInvariant
    rw [hfF, hfA]
    simp
  · intro f now coll hinv d0 hd0
    rcases mem_execUpdateOne_snd _ _ _ _ hd0 with h | ⟨d, _, rfl⟩
    · exact hinv d0 h
    · exact hsoft now d
  · intro f now coll hinv d0 hd0
    rcases mem_execUpdateMany_snd _ _ _ _ hd0 with h | ⟨d, _, rfl⟩
    · exact hinv d0 h
    · exact hsoft now d
  · intro f now coll hinv d0 hd0
    rcases mem_execFindOneAndUpdate_snd _ _ _ _ _ hd0 with h | ⟨d, _, rfl⟩
    · exact hinv d0 h
    · exact hsoft now d
  · intro id now coll hinv d0 hd0
    rcases mem_execFindOneAndUpdate_snd _ _ _ _ _ hd0 with h | ⟨d, _, rfl⟩
    · exact hinv d0 h
    · exact hsoft now d
  · intro f coll hinv d0 hd0
    rcases mem_execUpdateMany_snd _ _ _ _ hd0 with h | ⟨d, _, rfl⟩
    · exact hinv d0 h
    · exact hrest d

/-- Witness for C8 at the default configuration. -/
theorem c8_timestamp_flag_invariant_witness :
    defaultOpts.deletedAt = true
    ∧ defaultOpts.deletedField ≠ defaultOpts.deletedAtField
    ∧ defaultOpts.deletedByField ≠ defaultOpts.deletedField
    ∧ defaultOpts.deletedByField ≠ defaultOpts.deletedAtField
    ∧ InvariantPreservation defaultOpts :=
  ⟨rfl, by decide, by decide, by decide,
    c8_timestamp_flag_invariant defaultOpts rfl (by decide) (by decide) (by decide)⟩

end Paranoia
